import Mathlib

/-!
# Verification of the discord-logs-uploader pipeline

Shallow embedding of `src/discord_logs_uploader.py`.  Pure string handling
(the name filter, the team-name regex, the match-number regex, the Python
`pathlib` suffix rule) is translated to Lean functions over `List Char`.
File-system and archive state is made explicit: an archive is a list of
named entries, the scratch workspace is an association list from paths to
values, and the orchestrator threads an event trace (replies sent back to
the invoking context, files extracted, files sent, the workspace teardown)
together with the list of completed team codes.  External effects (channel
lookup on the guild, the transport outcome of a send) are supplied by an
environment of functions, so every run of the model is deterministic and
executable.
-/

namespace LogsUploader

/-- ASCII lowercasing of one character, the behaviour of Python's
`str.lower` on the ASCII range (all inputs in this development are ASCII). -/
def pyLowerChar (c : Char) : Char :=
  if 'A' ≤ c ∧ c ≤ 'Z' then Char.ofNat (c.toNat + 32) else c

/-- Model of Python `str.lower` (ASCII range). -/
def pyLower (s : String) : String :=
  String.mk (s.toList.map pyLowerChar)

/-- Model of Python `str.startswith`. -/
def pyStartsWith (s p : String) : Bool :=
  p.toList.isPrefixOf s.toList

/-- Model of Python `str.endswith`. -/
def pyEndsWith (s p : String) : Bool :=
  p.toList.isSuffixOf s.toList

/-- Model of Python `pathlib.PurePath.suffix` for a file name: the part of
the name from the last dot on, provided that dot is neither the first nor
the last character; otherwise the empty string. -/
def pySuffix (s : String) : String :=
  match (s.toList.reverse).findIdx? (· = '.') with
  | none => ""
  | some r =>
    if 0 < r ∧ r + 1 < s.toList.length then
      String.mk ('.' :: (s.toList.reverse.take r).reverse)
    else ""

/-- `TEAM_PREFIX` from the source: prefix of team channels and team
sub-archive names. -/
def TEAM_PREFIX : String := "team-"

/-- `COMMON_CHANNEL` from the source: channel for files available to all
teams. -/
def COMMON_CHANNEL : String := "general"

/-- `pre_test_zipfile` from the source: an entry passes the name filter
when its lowercased name ends in `.zip` and starts with `team-`.
(The two early returns also emit debug-level log lines, which carry no
information the claims need and are not modelled.) -/
def pre_test_zipfile (archive_name : String) : Bool :=
  if ¬ pyEndsWith (pyLower archive_name) ".zip" then false
  else if ¬ pyStartsWith (pyLower archive_name) TEAM_PREFIX then false
  else true

/-- The lazy group of the regex `team-(.*?)[-.]` applied to the characters
after the literal `team-`: scanning left to right, succeed with the prefix
collected so far at the first `'-'` or `'.'`; fail at a newline (`.` in the
pattern does not match a newline) or at the end of the string. -/
def tlaScan : List Char → Option (List Char)
  | [] => none
  | c :: cs =>
    if c = '-' ∨ c = '.' then some []
    else if c = '\n' then none
    else (tlaScan cs).map (c :: ·)

/-- `re.match(TEAM_PREFIX + r'(.*?)[-.]', archive_name)` from
`get_team_channel`: anchored at the start, the literal `team-` (case
sensitive) followed by the lazy group up to the first `'-'` or `'.'`.
Returns the extracted group (the team code) when the pattern matches. -/
def tla_match (s : String) : Option String :=
  match s.toList with
  | 't' :: 'e' :: 'a' :: 'm' :: '-' :: rest => (tlaScan rest).map String.mk
  | _ => none

/-- Decidable digit test used by the `[0-9]+` part of the match-number
regex. -/
def isDigitChar (c : Char) : Bool := '0' ≤ c ∧ c ≤ '9'

/-- Attempt to match the whole pattern `match-([0-9]+)` at the head of the
character list, returning the (greedy, maximal) digit group. -/
def matchNumHere : List Char → Option String
  | 'm' :: 'a' :: 't' :: 'c' :: 'h' :: '-' :: c :: cs =>
    if isDigitChar c then some (String.mk (c :: cs.takeWhile isDigitChar)) else none
  | _ => none

/-- `re.search(r'match-([0-9]+)', log_name)` from `match_animation_files`:
try the pattern at each position from the left, returning the digit group
of the leftmost full match. -/
def searchMatchNum : List Char → Option String
  | [] => none
  | c :: cs =>
    match matchNumHere (c :: cs) with
    | some num => some num
    | none => searchMatchNum cs

/-- `match_animation_files` from the source, over a directory modelled as
the list of names of its (direct-child) files.  Returns the selected file
names together with the log lines the function emits: on a log name with
no `match-<digits>` token, a warning `Invalid match name: ...` and the
empty list; otherwise the `match-<number>.*` glob results whose `pathlib`
suffix is not `.mp4`, with the debug line about fetching. -/
def match_animation_files (log_name : String) (animation_dir : List String) :
    List String × List String :=
  match searchMatchNum log_name.toList with
  | none => ([], ["Invalid match name: " ++ log_name])
  | some match_num =>
    let match_files := animation_dir.filter
      (fun f => pyStartsWith f ("match-" ++ match_num ++ "."))
    (match_files.filter (fun data_file => pySuffix data_file ≠ ".mp4"),
      ["Fetching animation files for match " ++ match_num])

/-- One entry of an archive container: its name, whether the bytes stored
under that name form a valid zip (`is_zipfile` / openable with `ZipFile`),
and — when it is itself an archive — its contents as a list of
(relative path, byte-content identifier) pairs. -/
structure ZEntry where
  name : String
  valid : Bool
  inner : List (String × Nat)
deriving DecidableEq, Repr

/-- `ZipFile.getinfo(name)` resolution: Python's `NameToInfo` dictionary
maps a name to the *last* entry bearing it, so extraction by name yields
that entry.  The default is never reached when `nm` is drawn from the
archive's name list. -/
def zipGetInfo (entries : List ZEntry) (nm : String) : ZEntry :=
  ((entries.filter (fun e => e.name == nm)).getLast?).getD ⟨nm, false, []⟩

/-- `is_zipfile(tmpdir / nm)` after `zipfile.extract(nm, path=tmpdir)`:
validity of the bytes the archive stores under `nm`. -/
def validOf (entries : List ZEntry) (nm : String) : Bool :=
  (zipGetInfo entries nm).valid

/-- A value stored in the scratch workspace: either an archive blob (with
its validity and contents) or the raw bytes of one extracted file.  Only
files are tracked; empty directories left behind by extraction of nested
entry names are outside the model. -/
inductive WsVal where
  | blob (valid : Bool) (inner : List (String × Nat))
  | raw (b : Nat)
deriving DecidableEq, Repr

/-- The scratch workspace: relative path ↦ stored value. -/
abbrev Ws := List (String × WsVal)

/-- Delete a path from the workspace. -/
def wsRemove (ws : Ws) (k : String) : Ws := ws.filter (fun e => e.1 != k)

/-- Write a file, overwriting any previous file at that path. -/
def wsSet (ws : Ws) (k : String) (v : WsVal) : Ws := wsRemove ws k ++ [(k, v)]

/-- `extract_animations` from the source.  Filters the archive's names for
"starts with `animations`, ends with `.zip`" (case sensitive); with no
match returns `false` leaving the workspace untouched.  Otherwise extracts
the first matching name, renames it (`shutil.move`) to the canonical
`animations.zip`, and, when `fully_extract` is set, opens that blob — a
`BadZipFile` error when the blob is not a valid archive, modelled as
`.error ()` — and unpacks its contents into `animations/`. -/
def extract_animations (entries : List ZEntry) (tmpdir : Ws) (fully_extract : Bool) :
    Except Unit (Bool × Ws) :=
  let animation_files := (entries.map ZEntry.name).filter
    (fun nm => pyStartsWith nm "animations" && pyEndsWith nm ".zip")
  match animation_files with
  | [] => .ok (false, tmpdir)
  | nm :: _ =>
    let e := zipGetInfo entries nm
    let ws1 := wsSet tmpdir nm (.blob e.valid e.inner)
    let ws2 := wsSet (wsRemove ws1 nm) "animations.zip" (.blob e.valid e.inner)
    if fully_extract then
      if e.valid then
        .ok (true, e.inner.foldl (fun w p => wsSet w ("animations/" ++ p.1) (.raw p.2)) ws2)
      else .error ()
    else .ok (true, ws2)

/-- Content of the file at (top-level) path `f` of the animations
directory, modelled as association-list lookup. -/
def contentOf (animation_dir : List (String × Nat)) (f : String) : Nat :=
  (animation_dir.lookup f).getD 0

/-- `insert_match_files` from the source.  The sub-archive is opened for
append, so its final entry list is: the original entries (the `namelist()`
snapshot), then — for each original entry ending in `.txt`, in order — the
`match_animation_files` results written under their base name, then every
file under `textures/` of the animations directory written under its path
relative to that directory.  The animations directory is modelled as the
list of its files' (relative path, content) pairs; its direct children are
the paths without a `/`. -/
def insert_match_files (archive : List (String × Nat))
    (animation_dir : List (String × Nat)) : List (String × Nat) :=
  let dirNames := (animation_dir.map Prod.fst).filter (fun p => !(p.toList.contains '/'))
  let withMatches :=
    archive ++
      ((archive.map Prod.fst).filter (fun log_name => pyEndsWith log_name ".txt")).flatMap
        (fun log_name =>
          (match_animation_files log_name dirNames).1.map
            (fun f => (f, contentOf animation_dir f)))
  withMatches ++ animation_dir.filter (fun t => pyStartsWith t.1 "textures/")

/-- Outcome of the platform transport (`channel.send`): success, or a
`discord.HTTPException` carrying an HTTP status. -/
inductive Transport where
  | ok
  | httpError (status : Nat)
deriving DecidableEq, Repr

/-- The numeric figure embedded in the "was too large to upload"
diagnostic: `archive.stat().st_size / 1000**2`, as an exact rational (the
f-string then renders it with three decimals and the unit label `MiB`). -/
def sizeFigure (size : Nat) : ℚ := (size : ℚ) / 1000 ^ 2

/-- Observable events of a run: replies sent back to the invoking context,
file extractions into the workspace, splices, successful sends, the
oversized-payload diagnostic (with its size figure), the final summary,
and the workspace teardown. -/
inductive Event where
  | reply (msg : String)
  | extractFile (name : String)
  | spliced (name : String)
  | sent (name : String) (withAnimations : Bool)
  | tooLarge (name : String) (figure : ℚ)
  | summary (tlas : List String)
  | cleanup
deriving DecidableEq, Repr

/-- `send_file` from the source, as a function of the mode flag
`DISCORD_TESTING`, the file's size, and the transport outcome.  In testing
mode nothing is transmitted but the same size check (`size/1000**2 > 8`,
i.e. more than 8·10⁶ bytes, exactly equivalent for integer sizes) drives
the failure path.  Otherwise a raised `discord.HTTPException` with status
413 is the non-fatal oversized-payload case (diagnostic + `false`); any
other status is re-raised (`.error status`). -/
def send_file (testing : Bool) (size : Nat) (transport : Transport)
    (archive_name : String) : Except Nat (Bool × List Event) :=
  if testing then
    if 8 * 1000 ^ 2 < size then
      .ok (false, [.tooLarge archive_name (sizeFigure size)])
    else .ok (true, [])
  else
    match transport with
    | .ok => .ok (true, [])
    | .httpError status =>
      if status = 413 then
        .ok (false, [.tooLarge archive_name (sizeFigure size)])
      else .error status

/-- Result of the guild channel lookup for one name, covering
`get_channel`'s cases: no guild in scope (so the command raises
`NoPrivateMessage`), no channel of that name, a non-text channel of that
name, or a text channel.  The debug/testing overrides of `get_channel`
(always the calling channel / a designated guild) are folded into the
environment's choice of answer. -/
inductive ChannelRes where
  | noGuild
  | notFound
  | notText
  | found
deriving DecidableEq, Repr

/-- Exceptions that can leave the pipeline body: `BadZipFile` (caught by
`logs_upload`'s handler), `NoPrivateMessage`, or a re-raised
`discord.HTTPException` with its status. -/
inductive Fatal where
  | badZipFile
  | noPrivateMessage
  | http (status : Nat)
deriving DecidableEq, Repr

/-- The external world of one run: the mode flag, the guild's channel
table, and the size and transport outcome for each payload, keyed by the
entry name and whether the on-disk copy has animations spliced in. -/
structure Env where
  testing : Bool
  channel : String → ChannelRes
  size : String → Bool → Nat
  transport : String → Bool → Transport

/-- Result of `get_channel`: the channel (if any), the replies emitted,
and a raised `NoPrivateMessage` if the lookup had no guild. -/
structure ChanResult where
  chan : Option Unit
  events : List Event
  fatal : Option Fatal
deriving Repr

/-- `get_channel` from the source: lowercase the requested name, look it up
in the guild; missing or non-text channels produce a reply and no channel;
an absent guild raises `NoPrivateMessage`. -/
def get_channel (env : Env) (channel_name : String) : ChanResult :=
  let lname := pyLower channel_name
  match env.channel lname with
  | .noGuild => ⟨none, [], some .noPrivateMessage⟩
  | .notFound =>
    ⟨none, [.reply ("# Channel " ++ lname ++ " not found, unable to send message")], none⟩
  | .notText =>
    ⟨none, [.reply ("# " ++ lname ++ " is not a text channel, unable to send message")], none⟩
  | .found => ⟨some (), [], none⟩

/-- Result of `get_team_channel`: the extracted team code (empty on a
parse failure), the channel, the replies, and a possible raise. -/
structure TeamChanResult where
  tla : String
  chan : Option Unit
  events : List Event
  fatal : Option Fatal
deriving Repr

/-- `get_team_channel` from the source: extract the team code with the
`team-(.*?)[-.]` pattern; on failure reply with the extraction diagnostic
and return an empty code with no channel; on success look up channel
`team-<tla>`. -/
def get_team_channel (env : Env) (archive_name zip_name : String) : TeamChanResult :=
  match tla_match archive_name with
  | none =>
    ⟨"", none,
      [.reply ("# Failed to extract a TLA from " ++ archive_name ++ " in " ++ zip_name)],
      none⟩
  | some tla =>
    let c := get_channel env (TEAM_PREFIX ++ tla)
    ⟨tla, c.chan, c.events, c.fatal⟩

/-- Result of one iteration of the orchestrator's per-entry loop: the team
code appended to `completed_tlas` (if any), the events emitted, and a
possible raised exception. -/
structure EntryResult where
  completedTla : Option String
  events : List Event
  fatal : Option Fatal
deriving Repr

/-- One iteration of the `for archive_name in zipfile.namelist()` loop of
`logs_upload`: name filter, extract, validity gate, optional splice, team
channel resolution, delivery, and — on an oversized first attempt in team
mode — re-extraction of the original entry and one retry.  Only a
successful *first* attempt appends to `completed_tlas`: every branch of
the failed-first-attempt arm ends in the loop's `continue` before the
append. -/
def processEntry (env : Env) (team_animation : Option Bool) (animations_found : Bool)
    (entries : List ZEntry) (zip_name archive_name : String) : EntryResult :=
  if ¬ pre_test_zipfile archive_name then ⟨none, [], none⟩
  else
    let ev0 := [Event.extractFile archive_name]
    if ¬ validOf entries archive_name then
      ⟨none, ev0 ++
        [.reply ("# " ++ archive_name ++ " from " ++ zip_name ++ " is not a valid ZIP file")],
        none⟩
    else
      let doSplice := (team_animation == some true) && animations_found
      let ev1 := ev0 ++ (if doSplice then [Event.spliced archive_name] else [])
      let tc := get_team_channel env archive_name zip_name
      match tc.fatal with
      | some f => ⟨none, ev1 ++ tc.events, some f⟩
      | none =>
        match tc.chan with
        | none => ⟨none, ev1 ++ tc.events, none⟩
        | some _ =>
          match send_file env.testing (env.size archive_name doSplice)
              (env.transport archive_name doSplice) archive_name with
          | .error s => ⟨none, ev1 ++ tc.events, some (.http s)⟩
          | .ok (true, sevs) =>
            ⟨some tc.tla, ev1 ++ tc.events ++ sevs ++ [.sent archive_name doSplice], none⟩
          | .ok (false, sevs) =>
            if team_animation == some true then
              let ev2 := ev1 ++ tc.events ++ sevs ++ [Event.extractFile archive_name]
              match send_file env.testing (env.size archive_name false)
                  (env.transport archive_name false) archive_name with
              | .error s => ⟨none, ev2, some (.http s)⟩
              | .ok (true, sevs2) =>
                ⟨none, ev2 ++ sevs2 ++ [.sent archive_name false,
                    .reply ("Only able to upload logs for " ++ tc.tla ++
                      ", no animations were served")], none⟩
              | .ok (false, sevs2) => ⟨none, ev2 ++ sevs2, none⟩
            else ⟨none, ev1 ++ tc.events ++ sevs, none⟩

/-- Accumulated state of the per-entry loop: the `completed_tlas` list, the
emitted events, and the exception that aborted the loop, if any. -/
structure LoopState where
  completed : List String
  events : List Event
  fatal : Option Fatal
deriving Repr

/-- The per-entry loop itself: process the names in order, accumulating
completed teams and events, and stopping at the first raised exception. -/
def runEntries (env : Env) (team_animation : Option Bool) (animations_found : Bool)
    (entries : List ZEntry) (zip_name : String) :
    List String → LoopState → LoopState
  | [], st => st
  | nm :: rest, st =>
    if st.fatal.isSome then st
    else
      let r := processEntry env team_animation animations_found entries zip_name nm
      runEntries env team_animation animations_found entries zip_name rest
        ⟨st.completed ++ r.completedTla.toList, st.events ++ r.events, r.fatal⟩

/-- Overall outcome of one `logs_upload` run: the final `completed_tlas`,
the event trace (workspace teardown included), and the exception that left
the function, if any (`BadZipFile` is caught by its handler, so it never
appears here). -/
structure RunOutcome where
  completed : List String
  events : List Event
  fatal : Option Fatal
deriving Repr

/-- The animations step at the top of `logs_upload`'s body: when an
animations mode was requested, run `extract_animations` on the (empty)
workspace; a raised `BadZipFile` (corrupt bundle in team mode) aborts the
body, a missing bundle produces the "animations Zip file is missing"
reply.  Returns the `animations_found` flag and the body state so far. -/
def animationsStep (entries : List ZEntry) (team_animation : Option Bool) :
    Bool × LoopState :=
  match team_animation with
  | none => (false, ⟨[], [], none⟩)
  | some fully =>
    match extract_animations entries [] fully with
    | .error _ => (false, ⟨[], [], some .badZipFile⟩)
    | .ok (found, _) =>
      if !found then (false, ⟨[], [.reply "animations Zip file is missing"], none⟩)
      else (true, ⟨[], [], none⟩)

/-- The post-loop block of `logs_upload`: in separate mode (`team_animation
is False`) with a bundle found, resolve the common channel and send the
still-packed `animations.zip` there (the boolean result of that send is
discarded by the source). -/
def forwardAnimations (env : Env) (team_animation : Option Bool)
    (animations_found : Bool) (st1 : LoopState) : LoopState :=
  if st1.fatal.isSome then st1
  else if (team_animation == some false) && animations_found then
    let c := get_channel env COMMON_CHANNEL
    match c.fatal with
    | some f => ⟨st1.completed, st1.events ++ c.events, some f⟩
    | none =>
      match c.chan with
      | none => ⟨st1.completed, st1.events ++ c.events, none⟩
      | some _ =>
        match send_file env.testing (env.size "animations.zip" false)
            (env.transport "animations.zip" false) "animations.zip" with
        | .error s => ⟨st1.completed, st1.events ++ c.events, some (.http s)⟩
        | .ok (true, sevs) =>
          ⟨st1.completed,
            st1.events ++ c.events ++ sevs ++ [.sent "animations.zip" false], none⟩
        | .ok (false, sevs) =>
          ⟨st1.completed, st1.events ++ c.events ++ sevs, none⟩
  else st1

/-- The body of `logs_upload` once the combined archive is open: the
animations step, the per-entry loop, the separate-mode forward, and the
summary reply listing the completed teams. -/
def bodyRun (env : Env) (entries : List ZEntry) (zip_name : String)
    (team_animation : Option Bool) : LoopState :=
  let s := animationsStep entries team_animation
  if s.2.fatal.isSome then s.2
  else
    let st1 := runEntries env team_animation s.1 entries zip_name
      (entries.map ZEntry.name) s.2
    let st2 := forwardAnimations env team_animation s.1 st1
    if st2.fatal.isSome then st2
    else ⟨st2.completed, st2.events ++ [.summary st2.completed], none⟩

/-- `logs_upload` from the source, the pipeline orchestrator.  `outer` is
the combined archive: `none` when opening it raises `BadZipFile`.  Inside
the scratch workspace (`with tempfile.TemporaryDirectory()`) the body
runs; leaving the `with` block tears the workspace down on every path —
normal return or unwinding exception — after which the `except BadZipFile`
handler turns that error into the "not a valid ZIP file" reply, while any
other exception keeps propagating to the caller. -/
def logs_upload (env : Env) (outer : Option (List ZEntry)) (zip_name : String)
    (team_animation : Option Bool) : RunOutcome :=
  let body : LoopState :=
    match outer with
    | none => ⟨[], [], some .badZipFile⟩
    | some entries => bodyRun env entries zip_name team_animation
  match body.fatal with
  | some .badZipFile =>
    ⟨body.completed,
      body.events ++ [.cleanup, .reply ("# " ++ zip_name ++ " is not a valid ZIP file")],
      none⟩
  | f => ⟨body.completed, body.events ++ [.cleanup], f⟩

/-! ## Delivery engine: oversized payloads (C8, C9) -/

/-- C8: for every delivery attempt over the real transport, an
oversized-payload response (HTTP status 413) is handled as a non-fatal
outcome — `send_file` produces the diagnostic carrying the file's size
figure and returns `false` — while every other transport failure is
re-raised and propagates out of the delivery engine. -/
theorem C8_payload_too_large (size : Nat) (archive_name : String) (status : Nat) :
    send_file false size (.httpError 413) archive_name =
      .ok (false, [.tooLarge archive_name (sizeFigure size)]) ∧
    (status ≠ 413 →
      send_file false size (.httpError status) archive_name = .error status) := by
  refine ⟨by simp [send_file], fun h => ?_⟩
  simp [send_file, h]

/-- Witness for C8 at a concrete size, name and non-413 status. -/
theorem C8_payload_too_large_witness :
    (500 : Nat) ≠ 413 ∧
    send_file false 100 (.httpError 413) "x.zip" =
      .ok (false, [.tooLarge "x.zip" (sizeFigure 100)]) ∧
    send_file false 100 (.httpError 500) "x.zip" = .error 500 :=
  ⟨by decide, (C8_payload_too_large 100 "x.zip" 500).1,
    (C8_payload_too_large 100 "x.zip" 500).2 (by decide)⟩

/-- C9, counterexample: the claim says the diagnostic's size figure is the
byte count divided by `1024^2`; the code divides by `1000^2`.  At a
9 000 000-byte file the test-mode send fails with figure `9`, which is
not `9000000 / 1024^2`. -/
theorem C9_counterexample :
    send_file true 9000000 .ok "x.zip" =
      .ok (false, [.tooLarge "x.zip" (sizeFigure 9000000)]) ∧
    sizeFigure 9000000 = 9 ∧ (9 : ℚ) ≠ 9000000 / 1024 ^ 2 := by
  refine ⟨by norm_num [send_file], by norm_num [sizeFigure], by norm_num⟩

/-- C9, amended: the size figure in the oversized-payload diagnostic is
the file's byte count divided by `1000^2` (megabytes, although the message
labels it MiB), and in test mode the send operation reports this failure
and returns `false` exactly when the file exceeds 8·10⁶ bytes. -/
theorem C9_size_figure (size : Nat) (archive_name : String) (transport : Transport) :
    (8 * 1000 ^ 2 < size →
      send_file true size transport archive_name =
        .ok (false, [.tooLarge archive_name ((size : ℚ) / 1000 ^ 2)])) ∧
    (¬ 8 * 1000 ^ 2 < size →
      send_file true size transport archive_name = .ok (true, [])) := by
  constructor <;> intro h <;> simp [send_file, sizeFigure, h] <;> omega

/-- Witness for C9's amended statement at sizes on both sides of the
threshold. -/
theorem C9_size_figure_witness :
    8 * 1000 ^ 2 < 9000000 ∧ ¬ 8 * 1000 ^ 2 < 100 ∧
    send_file true 9000000 .ok "x.zip" =
      .ok (false, [.tooLarge "x.zip" ((9000000 : ℚ) / 1000 ^ 2)]) ∧
    send_file true 100 .ok "x.zip" = .ok (true, []) :=
  ⟨by norm_num, by norm_num,
    (C9_size_figure 9000000 "x.zip" .ok).1 (by norm_num),
    (C9_size_figure 100 "x.zip" .ok).2 (by norm_num)⟩

/-! ## Name parser (C4, C10) -/

/-- The lazy scan stops exactly at the first separator when no character
of the token is a separator or a newline. -/
theorem tlaScan_append (tok : List Char) (sep : Char) (rest : List Char)
    (hsep : sep = '-' ∨ sep = '.')
    (htok : ∀ c ∈ tok, c ≠ '-' ∧ c ≠ '.' ∧ c ≠ '\n') :
    tlaScan (tok ++ sep :: rest) = some tok := by
  induction tok with
  | nil =>
    simp only [List.nil_append, tlaScan]
    rcases hsep with h | h <;> simp [h]
  | cons c cs ih =>
    obtain ⟨h1, h2, h3⟩ := htok c (List.mem_cons_self _ _)
    simp only [List.cons_append, tlaScan]
    rw [if_neg (by tauto), if_neg h3]
    have hrec := ih (fun d hd => htok d (List.mem_cons_of_mem _ hd))
    simp [hrec]

/-- `tla_match` on a name of the form `team-<tail>` is the scan of the
tail. -/
theorem tla_match_concat (tail : String) :
    tla_match ("team-" ++ tail) = (tlaScan tail.toList).map String.mk := by
  have h : ("team-" ++ tail).toList = 't' :: 'e' :: 'a' :: 'm' :: '-' :: tail.toList := by
    simp [String.toList, String.data_append]
  unfold tla_match
  rw [h]
  rfl

/-- A name that does not start with the literal `team-` cannot match the
team-name pattern. -/
theorem tla_match_eq_none (s : String) (h : pyStartsWith s TEAM_PREFIX = false) :
    tla_match s = none := by
  unfold tla_match
  split
  · next rest heq =>
    exfalso
    have hdata : s.data = 't' :: 'e' :: 'a' :: 'm' :: '-' :: rest := heq
    simp only [pyStartsWith, TEAM_PREFIX, String.toList] at h
    rw [hdata] at h
    simp [List.isPrefixOf] at h
  · rfl

/-- C4: for every entry name of the form `team-<token>` followed by a
separator `'-'` or `'.'` (the token itself containing no separator and no
newline), the parser extracts the token exactly, case preserved; and for
every entry name not matching the pattern, `get_team_channel` reports the
name-extraction failure and returns an empty team code with no channel. -/
theorem C4_name_extraction (env : Env) (zip_name token rest s : String) (sep : Char)
    (hsep : sep = '-' ∨ sep = '.')
    (htok : ∀ c ∈ token.toList, c ≠ '-' ∧ c ≠ '.' ∧ c ≠ '\n')
    (hfail : tla_match s = none) :
    tla_match ("team-" ++ (token ++ (String.singleton sep ++ rest))) = some token ∧
    get_team_channel env s zip_name =
      ⟨"", none,
        [.reply ("# Failed to extract a TLA from " ++ s ++ " in " ++ zip_name)],
        none⟩ := by
  constructor
  · rw [tla_match_concat]
    have htail : (token ++ (String.singleton sep ++ rest)).toList =
        token.toList ++ sep :: rest.toList := by
      simp [String.toList, String.data_append, String.singleton]
    rw [htail, tlaScan_append token.toList sep rest.toList hsep htok]
    cases token
    rfl
  · unfold get_team_channel
    rw [hfail]

/-- Witness for C4 on `team-ABC-1.zip` and the non-matching `match.zip`. -/
theorem C4_name_extraction_witness :
    (('-' : Char) = '-' ∨ ('-' : Char) = '.') ∧
    (∀ c ∈ ("ABC" : String).toList, c ≠ '-' ∧ c ≠ '.' ∧ c ≠ '\n') ∧
    tla_match "match.zip" = none ∧
    tla_match ("team-" ++ ("ABC" ++ (String.singleton '-' ++ "1.zip"))) = some "ABC" ∧
    get_team_channel
        ⟨false, fun _ => .found, fun _ _ => 0, fun _ _ => .ok⟩ "match.zip" "c.zip" =
      ⟨"", none,
        [.reply ("# Failed to extract a TLA from " ++ "match.zip" ++ " in " ++ "c.zip")],
        none⟩ :=
  ⟨Or.inl rfl, by decide, by decide,
    (C4_name_extraction ⟨false, fun _ => .found, fun _ _ => 0, fun _ _ => .ok⟩
      "c.zip" "ABC" "1.zip" "match.zip" '-' (Or.inl rfl) (by decide) (by decide)).1,
    (C4_name_extraction ⟨false, fun _ => .found, fun _ _ => 0, fun _ _ => .ok⟩
      "c.zip" "ABC" "1.zip" "match.zip" '-' (Or.inl rfl) (by decide) (by decide)).2⟩

/-- C10: an entry whose `team-` prefix is written in upper or mixed case
and whose name ends in `.zip` in any case passes the (lowercasing) name
filter, but the case-sensitive team-name pattern fails, so the entry
yields an empty team code with no channel and its processing appends no
completed team and sends nothing. -/
theorem C10_case_mismatch (env : Env) (entries : List ZEntry) (ta : Option Bool)
    (af : Bool) (zip_name s : String)
    (hzip : pyEndsWith (pyLower s) ".zip" = true)
    (hpre : pyStartsWith (pyLower s) TEAM_PREFIX = true)
    (hcase : pyStartsWith s TEAM_PREFIX = false) :
    pre_test_zipfile s = true ∧ tla_match s = none ∧
    get_team_channel env s zip_name =
      ⟨"", none,
        [.reply ("# Failed to extract a TLA from " ++ s ++ " in " ++ zip_name)],
        none⟩ ∧
    (processEntry env ta af entries zip_name s).completedTla = none ∧
    ∀ sp, Event.sent s sp ∉ (processEntry env ta af entries zip_name s).events := by
  have hmatch : tla_match s = none := tla_match_eq_none s hcase
  have hpt : pre_test_zipfile s = true := by
    simp [pre_test_zipfile, hzip, hpre]
  have hteam : get_team_channel env s zip_name =
      ⟨"", none,
        [.reply ("# Failed to extract a TLA from " ++ s ++ " in " ++ zip_name)],
        none⟩ := by
    unfold get_team_channel
    rw [hmatch]
  refine ⟨hpt, hmatch, hteam, ?_, ?_⟩
  · unfold processEntry
    rw [hpt, hteam]
    by_cases hv : validOf entries s <;> simp [hv]
  · intro sp
    unfold processEntry
    rw [hpt, hteam]
    by_cases hv : validOf entries s
    · simp only [hv, not_true_eq_false, if_false]
      split <;> simp
    · simp [hv]

/-! ## Match file matcher (C5) -/

/-- A string starts with `p` exactly when it is `p` followed by some
extension: the meaning of the glob pattern `p*`. -/
theorem pyStartsWith_iff (f p : String) :
    pyStartsWith f p = true ↔ ∃ ext : String, f = p ++ ext := by
  unfold pyStartsWith
  rw [List.isPrefixOf_iff_prefix]
  constructor
  · rintro ⟨t, ht⟩
    exact ⟨String.mk t, String.ext (by simpa [String.data_append] using ht.symm)⟩
  · rintro ⟨ext, rfl⟩
    exact ⟨ext.data, by simp [String.toList, String.data_append]⟩

/-- C5: for a log filename containing `match-<digits>`, the matcher
returns exactly the files of the animations directory named
`match-<number>.<ext>` whose extension is not the video extension `.mp4`
(the empty list, not an error, when no such assets exist); for a log
filename with no `match-<digits>` token it logs the invalid-match-name
message and returns the empty sequence. -/
theorem C5_match_file_matcher (log_name : String) (animation_dir : List String)
    (num : String) :
    (searchMatchNum log_name.toList = some num →
      ∀ f, f ∈ (match_animation_files log_name animation_dir).1 ↔
        (f ∈ animation_dir ∧ (∃ ext, f = "match-" ++ num ++ "." ++ ext) ∧
          pySuffix f ≠ ".mp4")) ∧
    (searchMatchNum log_name.toList = none →
      match_animation_files log_name animation_dir =
        ([], ["Invalid match name: " ++ log_name])) := by
  constructor
  · intro h f
    unfold match_animation_files
    rw [h]
    simp only [List.mem_filter, decide_eq_true_eq, Bool.and_eq_true]
    rw [pyStartsWith_iff f ("match-" ++ num ++ ".")]
    simp only [String.append_assoc]
    tauto
  · intro h
    unfold match_animation_files
    rw [h]

/-- Witness for C5 on the spec's example assets. -/
theorem C5_match_file_matcher_witness :
    searchMatchNum "match-7.txt".toList = some "7" ∧
    searchMatchNum "match-x.txt".toList = none ∧
    ("match-7.a" ∈
        (match_animation_files "match-7.txt" ["match-7.a", "match-7.mp4"]).1 ↔
      ("match-7.a" ∈ ["match-7.a", "match-7.mp4"] ∧
        (∃ ext, "match-7.a" = "match-" ++ "7" ++ "." ++ ext) ∧
        pySuffix "match-7.a" ≠ ".mp4")) ∧
    match_animation_files "match-x.txt" ["match-7.a"] =
      ([], ["Invalid match name: " ++ "match-x.txt"]) :=
  ⟨by decide, by decide,
    (C5_match_file_matcher "match-7.txt" ["match-7.a", "match-7.mp4"] "7").1
      (by decide) "match-7.a",
    (C5_match_file_matcher "match-x.txt" ["match-7.a"] "7").2 (by decide)⟩

/-- Witness for C10 on `TEAM-ABC.zip` with a trivial environment. -/
theorem C10_case_mismatch_witness :
    pyEndsWith (pyLower "TEAM-ABC.zip") ".zip" = true ∧
    pyStartsWith (pyLower "TEAM-ABC.zip") TEAM_PREFIX = true ∧
    pyStartsWith "TEAM-ABC.zip" TEAM_PREFIX = false ∧
    pre_test_zipfile "TEAM-ABC.zip" = true ∧ tla_match "TEAM-ABC.zip" = none ∧
    (processEntry ⟨false, fun _ => .found, fun _ _ => 0, fun _ _ => .ok⟩ none false
      [⟨"TEAM-ABC.zip", true, []⟩] "c.zip" "TEAM-ABC.zip").completedTla = none :=
  ⟨by decide, by decide, by decide,
    (C10_case_mismatch ⟨false, fun _ => .found, fun _ _ => 0, fun _ _ => .ok⟩
      [⟨"TEAM-ABC.zip", true, []⟩] none false "c.zip" "TEAM-ABC.zip"
      (by decide) (by decide) (by decide)).1,
    (C10_case_mismatch ⟨false, fun _ => .found, fun _ _ => 0, fun _ _ => .ok⟩
      [⟨"TEAM-ABC.zip", true, []⟩] none false "c.zip" "TEAM-ABC.zip"
      (by decide) (by decide) (by decide)).2.1,
    (C10_case_mismatch ⟨false, fun _ => .found, fun _ _ => 0, fun _ _ => .ok⟩
      [⟨"TEAM-ABC.zip", true, []⟩] none false "c.zip" "TEAM-ABC.zip"
      (by decide) (by decide) (by decide)).2.2.2.1⟩

/-! ## Archive splicer (C7) -/

/-- C7: after splicing, the sub-archive consists of its original entries
(preserved in place at the front), plus — for the original entries ending
in `.txt` — each file the match-file matcher returns, stored under its
base name with its content from the animations directory, plus every file
under the `textures/` subtree of the animations directory stored under its
path relative to that directory. -/
theorem C7_splicer (archive animation_dir : List (String × Nat)) (e : String × Nat) :
    (insert_match_files archive animation_dir).take archive.length = archive ∧
    (e ∈ insert_match_files archive animation_dir ↔
      e ∈ archive ∨
      (∃ log_name, log_name ∈ archive.map Prod.fst ∧
        pyEndsWith log_name ".txt" = true ∧
        e.1 ∈ (match_animation_files log_name
          ((animation_dir.map Prod.fst).filter (fun p => !(p.toList.contains '/')))).1 ∧
        e.2 = contentOf animation_dir e.1) ∨
      (pyStartsWith e.1 "textures/" = true ∧ e ∈ animation_dir)) := by
  obtain ⟨n, c⟩ := e
  constructor
  · simp only [insert_match_files, List.append_assoc]
    exact List.take_left archive _
  · unfold insert_match_files
    simp only [List.mem_append, List.mem_flatMap, List.mem_filter, List.mem_map,
      Prod.mk.injEq]
    constructor
    · rintro ((h | ⟨log, ⟨hlog, htxt⟩, f, hf, rfl, rfl⟩) | ⟨hmem, htex⟩)
      · exact Or.inl h
      · exact Or.inr (Or.inl ⟨log, hlog, htxt, hf, rfl⟩)
      · exact Or.inr (Or.inr ⟨htex, hmem⟩)
    · rintro (h | ⟨log, hlog, htxt, hf, hc⟩ | ⟨htex, hmem⟩)
      · exact Or.inl (Or.inl h)
      · exact Or.inl (Or.inr ⟨log, ⟨hlog, htxt⟩, n, hf, rfl, hc.symm⟩)
      · exact Or.inr ⟨hmem, htex⟩

/-! ## Animation resolver (C6) -/

/-- Prepending a common prefix is cancellable on strings. -/
theorem string_append_left_cancel {pre a b : String} (h : pre ++ a = pre ++ b) :
    a = b := by
  apply String.ext
  have hd := congrArg String.data h
  rw [String.data_append, String.data_append] at hd
  exact List.append_cancel_left hd

/-- No path inside the extracted `animations/` directory collides with the
canonical `animations.zip` file. -/
theorem animations_slash_ne_zip (x : String) :
    "animations/" ++ x ≠ "animations.zip" := by
  intro h
  have hd : ("animations/" : String).data ++ x.data = ("animations.zip" : String).data := by
    have := congrArg String.data h
    rwa [String.data_append] at this
  have h10 := congrArg (fun l => l[10]?) hd
  simp only at h10
  rw [List.getElem?_append] at h10
  simp at h10

/-- Writing the extracted bundle contents into a workspace none of whose
paths collide with them is a plain append (`extractall` into a fresh
directory). -/
theorem foldl_wsSet_extractall (l : List (String × Nat)) (w : Ws)
    (hW : ∀ p ∈ l, ∀ kv ∈ w, "animations/" ++ p.1 ≠ kv.1)
    (hnd : (l.map Prod.fst).Nodup) :
    l.foldl (fun acc p => wsSet acc ("animations/" ++ p.1) (.raw p.2)) w =
      w ++ l.map (fun p => ("animations/" ++ p.1, WsVal.raw p.2)) := by
  induction l generalizing w with
  | nil => simp
  | cons p ps ih =>
    simp only [List.foldl_cons, List.map_cons]
    have hset : wsSet w ("animations/" ++ p.1) (.raw p.2) =
        w ++ [("animations/" ++ p.1, WsVal.raw p.2)] := by
      unfold wsSet wsRemove
      have hkeep : w.filter (fun e => e.1 != "animations/" ++ p.1) = w := by
        apply List.filter_eq_self.mpr
        intro kv hkv
        have hne := hW p (List.mem_cons_self _ _) kv hkv
        simp only [bne_iff_ne, ne_eq, decide_eq_true_eq]
        exact fun hh => hne hh.symm
      rw [hkeep]
    have hnd' : (ps.map Prod.fst).Nodup := (List.nodup_cons.mp hnd).2
    have hW' : ∀ q ∈ ps, ∀ kv ∈ w ++ [("animations/" ++ p.1, WsVal.raw p.2)],
        "animations/" ++ q.1 ≠ kv.1 := by
      intro q hq kv hkv
      rcases List.mem_append.mp hkv with h | h
      · exact hW q (List.mem_cons_of_mem _ hq) kv h
      · have hkv1 : kv.1 = "animations/" ++ p.1 := by
          simp only [List.mem_singleton] at h
          rw [h]
        rw [hkv1]
        intro he
        have hq1 : q.1 = p.1 := string_append_left_cancel he
        have hpnot : p.1 ∉ ps.map Prod.fst := (List.nodup_cons.mp hnd).1
        exact hpnot (hq1 ▸ List.mem_map_of_mem Prod.fst hq)
    rw [hset, ih (w ++ [("animations/" ++ p.1, WsVal.raw p.2)]) hW' hnd']
    simp

/-- C6: with no entry matching the animations pattern the resolver returns
`false` and leaves the workspace unchanged; with a first match `nm`, from
an empty workspace it extracts that entry into the canonical
`animations.zip` name and, when `expand` is false, leaves exactly
`animations.zip` in the workspace; when `expand` is true (for a valid
bundle with distinct member paths) it leaves `animations.zip` plus the
bundle's contents under `animations/`.  The workspace model tracks files
only. -/
theorem C6_animation_resolver (entries : List ZEntry) (ws : Ws) (nm : String)
    (rest : List String) :
    ((entries.map ZEntry.name).filter
        (fun n => pyStartsWith n "animations" && pyEndsWith n ".zip") = [] →
      ∀ b, extract_animations entries ws b = .ok (false, ws)) ∧
    ((entries.map ZEntry.name).filter
        (fun n => pyStartsWith n "animations" && pyEndsWith n ".zip") = nm :: rest →
      extract_animations entries [] false =
        .ok (true, [("animations.zip",
          .blob (zipGetInfo entries nm).valid (zipGetInfo entries nm).inner)]) ∧
      ((zipGetInfo entries nm).valid = true →
        ((zipGetInfo entries nm).inner.map Prod.fst).Nodup →
        extract_animations entries [] true =
          .ok (true, ("animations.zip", .blob true (zipGetInfo entries nm).inner) ::
            (zipGetInfo entries nm).inner.map
              (fun p => ("animations/" ++ p.1, WsVal.raw p.2))))) := by
  constructor
  · intro hnone b
    unfold extract_animations
    rw [hnone]
  · intro hsome
    have hws2 : ∀ (k k' : String) (v v' : WsVal),
        wsSet (wsRemove (wsSet ([] : Ws) k v) k) k' v' = [(k', v')] := by
      intro k k' v v'
      simp [wsSet, wsRemove]
    constructor
    · unfold extract_animations
      rw [hsome]
      simp only [Bool.false_eq_true, if_false, hws2]
    · intro hvalid hnd
      unfold extract_animations
      rw [hsome]
      simp only [hvalid, if_true, hws2]
      rw [foldl_wsSet_extractall _ _
        (fun p _ kv hkv => by
          simp only [List.mem_singleton] at hkv
          rw [hkv]
          exact animations_slash_ne_zip p.1) hnd]
      simp

/-- Witness for C6: a one-entry archive whose bundle holds one asset and
one texture, plus an archive with no animations entry. -/
theorem C6_animation_resolver_witness :
    (([⟨"team-ABC.zip", true, []⟩] : List ZEntry).map ZEntry.name).filter
        (fun n => pyStartsWith n "animations" && pyEndsWith n ".zip") = [] ∧
    extract_animations [⟨"team-ABC.zip", true, []⟩] [] true = .ok (false, []) ∧
    (([⟨"animations-x.zip", true, [("a.png", 1), ("textures/b.png", 2)]⟩] :
        List ZEntry).map ZEntry.name).filter
        (fun n => pyStartsWith n "animations" && pyEndsWith n ".zip") =
      ["animations-x.zip"] ∧
    extract_animations [⟨"animations-x.zip", true, [("a.png", 1), ("textures/b.png", 2)]⟩]
        [] false =
      .ok (true, [("animations.zip", .blob true [("a.png", 1), ("textures/b.png", 2)])]) ∧
    extract_animations [⟨"animations-x.zip", true, [("a.png", 1), ("textures/b.png", 2)]⟩]
        [] true =
      .ok (true, [("animations.zip", .blob true [("a.png", 1), ("textures/b.png", 2)]),
        ("animations/a.png", .raw 1), ("animations/textures/b.png", .raw 2)]) :=
  ⟨by decide, (C6_animation_resolver [⟨"team-ABC.zip", true, []⟩] [] "x" []).1
      (by decide) true,
    by decide,
    ((C6_animation_resolver
        [⟨"animations-x.zip", true, [("a.png", 1), ("textures/b.png", 2)]⟩] []
        "animations-x.zip" []).2 (by decide)).1,
    by
      have h := ((C6_animation_resolver
        [⟨"animations-x.zip", true, [("a.png", 1), ("textures/b.png", 2)]⟩] []
        "animations-x.zip" []).2 (by decide)).2 (by decide) (by decide)
      simpa using h⟩

/-! ## Workspace teardown (C2) -/

/-- The delivery engine never emits the teardown event. -/
theorem send_file_no_cleanup (testing : Bool) (size : Nat) (tr : Transport)
    (nm : String) (b : Bool) (evs : List Event)
    (h : send_file testing size tr nm = .ok (b, evs)) : Event.cleanup ∉ evs := by
  unfold send_file at h
  split at h
  · split at h <;>
      (injection h with h; injection h with h1 h2; rw [← h2]; simp)
  · split at h
    · injection h with h; injection h with h1 h2; rw [← h2]; simp
    · split at h
      · injection h with h; injection h with h1 h2; rw [← h2]; simp
      · exact absurd h (by simp)

/-- Channel resolution never emits the teardown event. -/
theorem get_channel_no_cleanup (env : Env) (nm : String) :
    Event.cleanup ∉ (get_channel env nm).events := by
  unfold get_channel
  dsimp only
  split <;> simp

/-- Team-channel resolution never emits the teardown event. -/
theorem get_team_channel_no_cleanup (env : Env) (nm zip : String) :
    Event.cleanup ∉ (get_team_channel env nm zip).events := by
  unfold get_team_channel
  split
  · simp
  · dsimp only
    exact get_channel_no_cleanup env _
/-- The optional splice event is never the teardown event. -/
theorem not_mem_splice_if (c : Prop) [Decidable c] (nm : String) :
    Event.cleanup ∉ (if c then [Event.spliced nm] else []) := by
  split <;> simp

/-- One loop iteration never emits the teardown event. -/
theorem processEntry_no_cleanup (env : Env) (ta : Option Bool) (af : Bool)
    (entries : List ZEntry) (zip nm : String) :
    Event.cleanup ∉ (processEntry env ta af entries zip nm).events := by
  have hteam := get_team_channel_no_cleanup env nm zip
  have hsplice := not_mem_splice_if ((ta == some true && af) = true) nm
  unfold processEntry
  split
  · simp
  split
  · simp
  rcases htc : get_team_channel env nm zip with ⟨tla, chan, tevs, tfat⟩
  rw [htc] at hteam
  dsimp only at hteam ⊢
  cases tfat with
  | some f =>
    dsimp only
    simp only [List.mem_append]
    rintro ((h | h) | h)
    · simp at h
    · exact hsplice h
    · exact hteam h
  | none =>
    dsimp only
    cases chan with
    | none =>
      dsimp only
      simp only [List.mem_append]
      rintro ((h | h) | h)
      · simp at h
      · exact hsplice h
      · exact hteam h
    | some u =>
      dsimp only
      rcases hs : send_file env.testing (env.size nm (ta == some true && af))
          (env.transport nm (ta == some true && af)) nm with s | ⟨b, sevs⟩
      · dsimp only
        simp only [List.mem_append]
        rintro ((h | h) | h)
        · simp at h
        · exact hsplice h
        · exact hteam h
      · have hsevs := send_file_no_cleanup _ _ _ _ _ _ hs
        cases b with
        | true =>
          dsimp only
          simp only [List.mem_append]
          rintro ((((h | h) | h) | h) | h)
          · simp at h
          · exact hsplice h
          · exact hteam h
          · exact hsevs h
          · simp at h
        | false =>
          dsimp only
          split
          · rcases hs2 : send_file env.testing (env.size nm false)
                (env.transport nm false) nm with s2 | ⟨b2, sevs2⟩
            · dsimp only
              simp only [List.mem_append]
              rintro ((((h | h) | h) | h) | h)
              · simp at h
              · exact hsplice h
              · exact hteam h
              · exact hsevs h
              · simp at h
            · have hsevs2 := send_file_no_cleanup _ _ _ _ _ _ hs2
              cases b2 with
              | true =>
                dsimp only
                simp only [List.mem_append]
                rintro ((((((h | h) | h) | h) | h) | h) | h)
                · simp at h
                · exact hsplice h
                · exact hteam h
                · exact hsevs h
                · simp at h
                · exact hsevs2 h
                · simp at h
              | false =>
                dsimp only
                simp only [List.mem_append]
                rintro (((((h | h) | h) | h) | h) | h)
                · simp at h
                · exact hsplice h
                · exact hteam h
                · exact hsevs h
                · simp at h
                · exact hsevs2 h
          · simp only [List.mem_append]
            rintro (((h | h) | h) | h)
            · simp at h
            · exact hsplice h
            · exact hteam h
            · exact hsevs h

/-- The per-entry loop never emits the teardown event (from a
teardown-free initial state). -/
theorem runEntries_no_cleanup (env : Env) (ta : Option Bool) (af : Bool)
    (entries : List ZEntry) (zip : String) (names : List String) (st : LoopState)
    (h : Event.cleanup ∉ st.events) :
    Event.cleanup ∉ (runEntries env ta af entries zip names st).events := by
  induction names generalizing st with
  | nil => simpa [runEntries] using h
  | cons nm rest ih =>
    simp only [runEntries]
    split
    · exact h
    · exact ih _ (by
        simp only [List.mem_append]
        rintro (hh | hh)
        · exact h hh
        · exact processEntry_no_cleanup env ta af entries zip nm hh)

/-- The separate-mode forward never emits the teardown event (from a
teardown-free loop state). -/
theorem forwardAnimations_no_cleanup (env : Env) (ta : Option Bool) (af : Bool)
    (st1 : LoopState) (h : Event.cleanup ∉ st1.events) :
    Event.cleanup ∉ (forwardAnimations env ta af st1).events := by
  unfold forwardAnimations
  split
  · exact h
  split
  · rcases hc : get_channel env COMMON_CHANNEL with ⟨chan, cevs, cfat⟩
    have hcev := get_channel_no_cleanup env COMMON_CHANNEL
    rw [hc] at hcev
    dsimp only at hcev ⊢
    cases cfat with
    | some f =>
      dsimp only
      simp only [List.mem_append]
      rintro (hh | hh)
      · exact h hh
      · exact hcev hh
    | none =>
      dsimp only
      cases chan with
      | none =>
        dsimp only
        simp only [List.mem_append]
        rintro (hh | hh)
        · exact h hh
        · exact hcev hh
      | some u =>
        dsimp only
        rcases hs : send_file env.testing (env.size "animations.zip" false)
            (env.transport "animations.zip" false) "animations.zip" with s | ⟨b, sevs⟩
        · dsimp only
          simp only [List.mem_append]
          rintro (hh | hh)
          · exact h hh
          · exact hcev hh
        · have hsv := send_file_no_cleanup _ _ _ _ _ _ hs
          cases b with
          | true =>
            dsimp only
            simp only [List.mem_append]
            rintro (((hh | hh) | hh) | hh)
            · exact h hh
            · exact hcev hh
            · exact hsv hh
            · simp at hh
          | false =>
            dsimp only
            simp only [List.mem_append]
            rintro ((hh | hh) | hh)
            · exact h hh
            · exact hcev hh
            · exact hsv hh
  · exact h

/-- The whole body of `logs_upload` never emits the teardown event: the
teardown happens by leaving the `with` block, not inside the body. -/
theorem bodyRun_no_cleanup (env : Env) (entries : List ZEntry) (zip : String)
    (ta : Option Bool) :
    Event.cleanup ∉ (bodyRun env entries zip ta).events := by
  have hst0 : Event.cleanup ∉ (animationsStep entries ta).2.events := by
    unfold animationsStep
    split
    · simp
    · split
      · simp
      · split <;> simp
  have hst1 := runEntries_no_cleanup env ta (animationsStep entries ta).1 entries zip
    (entries.map ZEntry.name) (animationsStep entries ta).2 hst0
  have hst2 := forwardAnimations_no_cleanup env ta (animationsStep entries ta).1 _ hst1
  unfold bodyRun
  dsimp only
  split
  · exact hst0
  · split
    · exact hst2
    · simp only [List.mem_append]
      rintro (h | h)
      · exact hst2 h
      · simp at h

/-- C2: on every exit path of the orchestrator - normal completion, early
return, or a propagating exception, including a combined archive that
fails to open - the scratch workspace is torn down exactly once before
control returns to the caller. -/
theorem C2_cleanup_exactly_once (env : Env) (outer : Option (List ZEntry))
    (zip_name : String) (team_animation : Option Bool) :
    ((logs_upload env outer zip_name team_animation).events).count Event.cleanup = 1 := by
  unfold logs_upload
  cases outer with
  | none => simp
  | some entries =>
    have h0 := bodyRun_no_cleanup env entries zip_name team_animation
    dsimp only
    split
    · simp [List.count_append, List.count_eq_zero.mpr h0, List.count_cons]
    · simp [List.count_append, List.count_eq_zero.mpr h0]


/-! ## Orchestrator: completed-team accounting and per-entry isolation (C1, C3) -/

/-- A loop iteration depends on the archive only through the validity of
the bytes stored under the entry's name. -/
theorem processEntry_congr_valid (env : Env) (ta : Option Bool) (af : Bool)
    (e1 e2 : List ZEntry) (zip nm : String)
    (h : validOf e1 nm = validOf e2 nm) :
    processEntry env ta af e1 zip nm = processEntry env ta af e2 zip nm := by
  unfold processEntry
  rw [h]

/-- An entry that passes the name filter but holds invalid archive bytes
produces exactly the extraction and the diagnostic reply, completes no
team, and raises nothing: the loop continues. -/
theorem processEntry_invalid (env : Env) (ta : Option Bool) (af : Bool)
    (entries : List ZEntry) (zip nm : String)
    (hpre : pre_test_zipfile nm = true) (hval : validOf entries nm = false) :
    processEntry env ta af entries zip nm =
      ⟨none, [.extractFile nm,
        .reply ("# " ++ nm ++ " from " ++ zip ++ " is not a valid ZIP file")], none⟩ := by
  unfold processEntry
  rw [hpre, hval]
  simp

/-- A loop iteration never raises `BadZipFile`: only `NoPrivateMessage`
or a re-raised HTTP error can leave it. -/
theorem processEntry_not_badZip (env : Env) (ta : Option Bool) (af : Bool)
    (entries : List ZEntry) (zip nm : String) :
    (processEntry env ta af entries zip nm).fatal ≠ some .badZipFile := by
  have hgtc : (get_team_channel env nm zip).fatal = none ∨
      (get_team_channel env nm zip).fatal = some .noPrivateMessage := by
    unfold get_team_channel
    split
    · exact Or.inl rfl
    · dsimp only
      unfold get_channel
      dsimp only
      split <;> simp
  unfold processEntry
  split
  · simp
  split
  · simp
  rcases htc : get_team_channel env nm zip with ⟨tla, chan, tevs, tfat⟩
  rw [htc] at hgtc
  dsimp only at hgtc ⊢
  cases tfat with
  | some f =>
    rcases hgtc with h | h
    · simp at h
    · injection h with h
      rw [h]
      simp
  | none =>
    dsimp only
    cases chan with
    | none => simp
    | some u =>
      dsimp only
      rcases hs : send_file env.testing (env.size nm (ta == some true && af))
          (env.transport nm (ta == some true && af)) nm with s | ⟨b, sevs⟩
      · simp
      · cases b with
        | true => simp
        | false =>
          dsimp only
          split
          · rcases hs2 : send_file env.testing (env.size nm false)
                (env.transport nm false) nm with s2 | ⟨b2, sevs2⟩
            · simp
            · cases b2 with
              | true => simp
              | false => simp
          · simp

/-- An entry whose first delivery attempt succeeds (name filter passed,
valid archive, team code parsed, channel found, send returned true) is
recorded as completed under its team code. -/
theorem processEntry_first_success (env : Env) (ta : Option Bool) (af : Bool)
    (entries : List ZEntry) (zip nm tla : String) (sevs : List Event)
    (hpre : pre_test_zipfile nm = true) (hval : validOf entries nm = true)
    (htla : tla_match nm = some tla)
    (hchan : (get_team_channel env nm zip).chan = some ())
    (hsend : send_file env.testing (env.size nm ((ta == some true) && af))
      (env.transport nm ((ta == some true) && af)) nm = .ok (true, sevs)) :
    (processEntry env ta af entries zip nm).completedTla = some tla ∧
    (processEntry env ta af entries zip nm).fatal = none := by
  have htcv : (get_team_channel env nm zip).tla = tla := by
    unfold get_team_channel
    rw [htla]
  have htcf : (get_team_channel env nm zip).fatal = none := by
    unfold get_team_channel at hchan ⊢
    rw [htla] at hchan ⊢
    dsimp only at hchan ⊢
    unfold get_channel at hchan ⊢
    dsimp only at hchan ⊢
    split at hchan <;> simp_all
  unfold processEntry
  rw [hpre, hval]
  simp only [not_true_eq_false, if_false]
  rcases htc : get_team_channel env nm zip with ⟨tla', chan, tevs, tfat⟩
  rw [htc] at htcv htcf hchan
  dsimp only at htcv htcf hchan ⊢
  subst htcv htcf hchan
  dsimp only
  rw [hsend]
  simp

/-- An entry whose first delivery attempt returns false is never recorded
as completed, whatever the retry does: every branch of the retry arm ends
in the loop's `continue` before the append. -/
theorem processEntry_first_failure (env : Env) (ta : Option Bool) (af : Bool)
    (entries : List ZEntry) (zip nm : String) (sevs : List Event)
    (hsend : send_file env.testing (env.size nm ((ta == some true) && af))
      (env.transport nm ((ta == some true) && af)) nm = .ok (false, sevs)) :
    (processEntry env ta af entries zip nm).completedTla = none := by
  unfold processEntry
  split
  · rfl
  split
  · rfl
  rcases htc : get_team_channel env nm zip with ⟨tla', chan, tevs, tfat⟩
  dsimp only
  cases tfat with
  | some f => rfl
  | none =>
    dsimp only
    cases chan with
    | none => rfl
    | some u =>
      dsimp only
      rw [hsend]
      dsimp only
      split
      · rcases hs2 : send_file env.testing (env.size nm false)
            (env.transport nm false) nm with s2 | ⟨b2, sevs2⟩
        · rfl
        · cases b2 <;> rfl
      · rfl

/-- The loop does nothing once an exception is pending. -/
theorem runEntries_stop (env : Env) (ta : Option Bool) (af : Bool)
    (entries : List ZEntry) (zip : String) (names : List String) (st : LoopState)
    (h : st.fatal.isSome = true) :
    runEntries env ta af entries zip names st = st := by
  cases names with
  | nil => rfl
  | cons nm rest =>
    simp only [runEntries]
    rw [if_pos h]

/-- The loop processes a concatenation in two stages. -/
theorem runEntries_append (env : Env) (ta : Option Bool) (af : Bool)
    (entries : List ZEntry) (zip : String) (l1 l2 : List String) (st : LoopState) :
    runEntries env ta af entries zip (l1 ++ l2) st =
      runEntries env ta af entries zip l2 (runEntries env ta af entries zip l1 st) := by
  induction l1 generalizing st with
  | nil => rfl
  | cons nm rest ih =>
    simp only [List.cons_append, runEntries]
    by_cases h : st.fatal.isSome
    · rw [if_pos h, if_pos h, runEntries_stop env ta af entries zip l2 st h]
    · rw [if_neg h, if_neg h]
      exact ih _

/-- A loop that ends without a pending exception started without one. -/
theorem runEntries_fatal_none_of (env : Env) (ta : Option Bool) (af : Bool)
    (entries : List ZEntry) (zip : String) (names : List String) (st : LoopState)
    (h : (runEntries env ta af entries zip names st).fatal = none) :
    st.fatal = none := by
  cases names with
  | nil => exact h
  | cons nm rest =>
    by_cases hf : st.fatal.isSome
    · rw [runEntries_stop env ta af entries zip _ st hf] at h
      exact h
    · exact Option.not_isSome_iff_eq_none.mp hf

/-- The loop only appends to the event trace. -/
theorem runEntries_events_mono (env : Env) (ta : Option Bool) (af : Bool)
    (entries : List ZEntry) (zip : String) (names : List String) (st : LoopState)
    (x : Event) (h : x ∈ st.events) :
    x ∈ (runEntries env ta af entries zip names st).events := by
  induction names generalizing st with
  | nil => exact h
  | cons nm rest ih =>
    simp only [runEntries]
    split
    · exact h
    · exact ih _ (by simp only [List.mem_append]; exact Or.inl h)

/-- The loop only appends to the completed-teams list. -/
theorem runEntries_completed_mono (env : Env) (ta : Option Bool) (af : Bool)
    (entries : List ZEntry) (zip : String) (names : List String) (st : LoopState)
    (x : String) (h : x ∈ st.completed) :
    x ∈ (runEntries env ta af entries zip names st).completed := by
  induction names generalizing st with
  | nil => exact h
  | cons nm rest ih =>
    simp only [runEntries]
    split
    · exact h
    · exact ih _ (by simp only [List.mem_append]; exact Or.inl h)

/-- Two loops whose steps agree, started from states with the same
completed list and pending exception, agree on both. -/
theorem runEntries_proj_congr (env : Env) (ta : Option Bool) (af : Bool)
    (e1 e2 : List ZEntry) (zip : String) (names : List String) (st1 st2 : LoopState)
    (hpc : ∀ nm ∈ names,
      processEntry env ta af e1 zip nm = processEntry env ta af e2 zip nm)
    (hc : st1.completed = st2.completed) (hf : st1.fatal = st2.fatal) :
    (runEntries env ta af e1 zip names st1).completed =
      (runEntries env ta af e2 zip names st2).completed ∧
    (runEntries env ta af e1 zip names st1).fatal =
      (runEntries env ta af e2 zip names st2).fatal := by
  induction names generalizing st1 st2 with
  | nil => exact ⟨hc, hf⟩
  | cons nm rest ih =>
    simp only [runEntries]
    by_cases h2 : st2.fatal.isSome
    · rw [if_pos (by rw [hf]; exact h2), if_pos h2]
      exact ⟨hc, hf⟩
    · rw [if_neg (by rw [hf]; exact h2), if_neg h2]
      refine ih _ _ (fun n hn => hpc n (List.mem_cons_of_mem _ hn)) ?_ ?_
      · rw [hc, hpc nm (List.mem_cons_self _ _)]
      · rw [hpc nm (List.mem_cons_self _ _)]

/-- The loop never raises `BadZipFile`. -/
theorem runEntries_not_badZip (env : Env) (ta : Option Bool) (af : Bool)
    (entries : List ZEntry) (zip : String) (names : List String) (st : LoopState)
    (h : st.fatal ≠ some .badZipFile) :
    (runEntries env ta af entries zip names st).fatal ≠ some .badZipFile := by
  induction names generalizing st with
  | nil => exact h
  | cons nm rest ih =>
    simp only [runEntries]
    split
    · exact h
    · exact ih _ (processEntry_not_badZip env ta af entries zip nm)

/-- When the loop finishes without an exception, the team code recorded by
any one of its entries is in the final completed list. -/
theorem runEntries_mem_completed (env : Env) (ta : Option Bool) (af : Bool)
    (entries : List ZEntry) (zip : String) (names : List String) (st : LoopState)
    (nm tla : String)
    (hfin : (runEntries env ta af entries zip names st).fatal = none)
    (hmem : nm ∈ names)
    (hp : (processEntry env ta af entries zip nm).completedTla = some tla) :
    tla ∈ (runEntries env ta af entries zip names st).completed := by
  induction names generalizing st with
  | nil => simp at hmem
  | cons a rest ih =>
    simp only [runEntries] at hfin ⊢
    by_cases hf : st.fatal.isSome
    · rw [if_pos hf] at hfin
      rw [hfin] at hf
      simp at hf
    · rw [if_neg hf] at hfin ⊢
      rcases List.mem_cons.mp hmem with rfl | hmem'
      · apply runEntries_completed_mono
        rw [hp]
        simp
      · exact ih _ hfin hmem'

/-- The separate-mode forward never changes the completed-teams list. -/
theorem forward_completed (env : Env) (ta : Option Bool) (af : Bool)
    (st : LoopState) :
    (forwardAnimations env ta af st).completed = st.completed := by
  unfold forwardAnimations
  split
  · rfl
  split
  · rcases hc : get_channel env COMMON_CHANNEL with ⟨chan, cevs, cfat⟩
    dsimp only
    cases cfat with
    | some f => rfl
    | none =>
      dsimp only
      cases chan with
      | none => rfl
      | some u =>
        dsimp only
        rcases hs : send_file env.testing (env.size "animations.zip" false)
            (env.transport "animations.zip" false) "animations.zip" with s | ⟨b, sevs⟩
        · rfl
        · cases b <;> rfl
  · rfl

/-- The separate-mode forward only appends to the event trace. -/
theorem forward_events_mono (env : Env) (ta : Option Bool) (af : Bool)
    (st : LoopState) (x : Event) (h : x ∈ st.events) :
    x ∈ (forwardAnimations env ta af st).events := by
  unfold forwardAnimations
  split
  · exact h
  split
  · rcases hc : get_channel env COMMON_CHANNEL with ⟨chan, cevs, cfat⟩
    dsimp only
    cases cfat with
    | some f => simp only [List.mem_append]; exact Or.inl h
    | none =>
      dsimp only
      cases chan with
      | none => simp only [List.mem_append]; exact Or.inl h
      | some u =>
        dsimp only
        rcases hs : send_file env.testing (env.size "animations.zip" false)
            (env.transport "animations.zip" false) "animations.zip" with s | ⟨b, sevs⟩
        · simp only [List.mem_append]; exact Or.inl h
        · cases b <;>
            (dsimp only; simp only [List.mem_append])
          · exact Or.inl (Or.inl h)
          · exact Or.inl (Or.inl (Or.inl h))
  · exact h

/-- The pending exception after the forward depends only on the pending
exception before it. -/
theorem forward_fatal_congr (env : Env) (ta : Option Bool) (af : Bool)
    (st1 st2 : LoopState) (hf : st1.fatal = st2.fatal) :
    (forwardAnimations env ta af st1).fatal = (forwardAnimations env ta af st2).fatal := by
  unfold forwardAnimations
  by_cases h2 : st2.fatal.isSome
  · rw [if_pos (by rw [hf]; exact h2), if_pos h2]
    exact hf
  · rw [if_neg (by rw [hf]; exact h2), if_neg h2]
    split
    · rcases hc : get_channel env COMMON_CHANNEL with ⟨chan, cevs, cfat⟩
      dsimp only
      cases cfat with
      | some f => rfl
      | none =>
        dsimp only
        cases chan with
        | none => rfl
        | some u =>
          dsimp only
          rcases hs : send_file env.testing (env.size "animations.zip" false)
              (env.transport "animations.zip" false) "animations.zip" with s | ⟨b, sevs⟩
          · rfl
          · cases b <;> rfl
    · exact hf

/-- The separate-mode forward never raises `BadZipFile`. -/
theorem forward_not_badZip (env : Env) (ta : Option Bool) (af : Bool)
    (st : LoopState) (h : st.fatal ≠ some .badZipFile) :
    (forwardAnimations env ta af st).fatal ≠ some .badZipFile := by
  unfold forwardAnimations
  split
  · exact h
  split
  · rcases hc : get_channel env COMMON_CHANNEL with ⟨chan, cevs, cfat⟩
    have hcf : cfat = none ∨ cfat = some .noPrivateMessage := by
      have : (get_channel env COMMON_CHANNEL).fatal = cfat := by rw [hc]
      unfold get_channel at this
      dsimp only at this
      split at this <;> simp_all
    dsimp only
    cases cfat with
    | some f =>
      rcases hcf with hh | hh
      · simp at hh
      · injection hh with hh
        rw [hh]
        simp
    | none =>
      dsimp only
      cases chan with
      | none => simp
      | some u =>
        dsimp only
        rcases hs : send_file env.testing (env.size "animations.zip" false)
            (env.transport "animations.zip" false) "animations.zip" with s | ⟨b, sevs⟩
        · simp
        · cases b <;> simp
  · exact h

/-- A forward that ends without a pending exception started without one. -/
theorem forward_fatal_none_of (env : Env) (ta : Option Bool) (af : Bool)
    (st : LoopState) (h : (forwardAnimations env ta af st).fatal = none) :
    st.fatal = none := by
  by_cases hf : st.fatal.isSome
  · unfold forwardAnimations at h
    rw [if_pos hf] at h
    rw [h] at hf
    simp at hf
  · exact Option.not_isSome_iff_eq_none.mp hf


/-- A body run that ends normally emits the summary reply listing exactly
its completed teams, which are those of the per-entry loop. -/
theorem bodyRun_summary (env : Env) (entries : List ZEntry) (zip : String)
    (ta : Option Bool)
    (hstep : (animationsStep entries ta).2.fatal = none)
    (hbody : (bodyRun env entries zip ta).fatal = none) :
    (bodyRun env entries zip ta).completed =
      (runEntries env ta (animationsStep entries ta).1 entries zip
        (entries.map ZEntry.name) (animationsStep entries ta).2).completed ∧
    Event.summary ((bodyRun env entries zip ta).completed) ∈
      (bodyRun env entries zip ta).events ∧
    (runEntries env ta (animationsStep entries ta).1 entries zip
      (entries.map ZEntry.name) (animationsStep entries ta).2).fatal = none := by
  unfold bodyRun at hbody ⊢
  dsimp only at hbody ⊢
  rw [if_neg (by rw [hstep]; simp)] at hbody ⊢
  by_cases h2 : (forwardAnimations env ta (animationsStep entries ta).1
      (runEntries env ta (animationsStep entries ta).1 entries zip
        (entries.map ZEntry.name) (animationsStep entries ta).2)).fatal.isSome
  · rw [if_pos h2] at hbody
    rw [hbody] at h2
    simp at h2
  · rw [if_neg h2] at hbody ⊢
    dsimp only
    refine ⟨forward_completed _ _ _ _, by simp, ?_⟩
    exact forward_fatal_none_of env ta (animationsStep entries ta).1 _
      (Option.not_isSome_iff_eq_none.mp h2)

/-- When the animations step does not raise, the body never raises
`BadZipFile`. -/
theorem bodyRun_not_badZip (env : Env) (entries : List ZEntry) (zip : String)
    (ta : Option Bool)
    (hstep : (animationsStep entries ta).2.fatal = none) :
    (bodyRun env entries zip ta).fatal ≠ some .badZipFile := by
  unfold bodyRun
  dsimp only
  rw [if_neg (by rw [hstep]; simp)]
  by_cases h2 : (forwardAnimations env ta (animationsStep entries ta).1
      (runEntries env ta (animationsStep entries ta).1 entries zip
        (entries.map ZEntry.name) (animationsStep entries ta).2)).fatal.isSome
  · rw [if_pos h2]
    apply forward_not_badZip
    apply runEntries_not_badZip
    rw [hstep]
    simp
  · rw [if_neg h2]
    simp

/-- A run of `logs_upload` that returns normally had a body that finished
without a pending exception (given the animations step did not raise:
that raise is what the `BadZipFile` handler would otherwise mask). -/
theorem logs_upload_body_fatal (env : Env) (entries : List ZEntry) (zip : String)
    (ta : Option Bool)
    (hstep : (animationsStep entries ta).2.fatal = none)
    (hfatal : (logs_upload env (some entries) zip ta).fatal = none) :
    (bodyRun env entries zip ta).fatal = none := by
  unfold logs_upload at hfatal
  dsimp only at hfatal
  rcases hb : (bodyRun env entries zip ta).fatal with _ | f
  · rfl
  · rw [hb] at hfatal
    cases f with
    | badZipFile => exact absurd hb (bodyRun_not_badZip env entries zip ta hstep)
    | noPrivateMessage => simp at hfatal
    | http s => simp at hfatal

/-- Shape of a normally-returning run: the body's outcome followed by the
workspace teardown. -/
theorem logs_upload_normal (env : Env) (entries : List ZEntry) (zip : String)
    (ta : Option Bool)
    (hbody : (bodyRun env entries zip ta).fatal = none) :
    logs_upload env (some entries) zip ta =
      ⟨(bodyRun env entries zip ta).completed,
        (bodyRun env entries zip ta).events ++ [.cleanup], none⟩ := by
  unfold logs_upload
  dsimp only
  rw [hbody]

/-- C1, amended: a team sub-archive whose delivery succeeds on the *first*
attempt is recorded as completed and appears in the final summary's list
(whose length is the reported count), provided the run completes normally;
but a sub-archive delivered only by the automatic retry with the original
unspliced copy is *not* recorded: the loop continues without appending it,
so such a team is absent from the summary. -/
theorem C1_first_attempt_recorded (env : Env) (entries : List ZEntry)
    (zip_name : String) (ta : Option Bool) (nm tla : String) (sevs : List Event) :
    ((logs_upload env (some entries) zip_name ta).fatal = none →
     (animationsStep entries ta).2.fatal = none →
     nm ∈ entries.map ZEntry.name →
     pre_test_zipfile nm = true →
     validOf entries nm = true →
     tla_match nm = some tla →
     (get_team_channel env nm zip_name).chan = some () →
     send_file env.testing
       (env.size nm ((ta == some true) && (animationsStep entries ta).1))
       (env.transport nm ((ta == some true) && (animationsStep entries ta).1)) nm =
       .ok (true, sevs) →
     tla ∈ (logs_upload env (some entries) zip_name ta).completed ∧
       Event.summary ((logs_upload env (some entries) zip_name ta).completed) ∈
         (logs_upload env (some entries) zip_name ta).events) ∧
    (∀ (af : Bool) (sevs2 : List Event),
      send_file env.testing (env.size nm ((ta == some true) && af))
        (env.transport nm ((ta == some true) && af)) nm = .ok (false, sevs2) →
      (processEntry env ta af entries zip_name nm).completedTla = none) := by
  constructor
  · intro hfatal hstep hmem hpre hval htla hchan hsend
    have hbody := logs_upload_body_fatal env entries zip_name ta hstep hfatal
    obtain ⟨hcomp, hsummem, hst1f⟩ := bodyRun_summary env entries zip_name ta hstep hbody
    have hp := (processEntry_first_success env ta (animationsStep entries ta).1
      entries zip_name nm tla sevs hpre hval htla hchan hsend).1
    have htla_in := runEntries_mem_completed env ta (animationsStep entries ta).1
      entries zip_name (entries.map ZEntry.name) (animationsStep entries ta).2
      nm tla hst1f hmem hp
    rw [logs_upload_normal env entries zip_name ta hbody]
    dsimp only
    constructor
    · rw [hcomp]
      exact htla_in
    · simp only [List.mem_append]
      exact Or.inl hsummem
  · intro af sevs2 hsend
    exact processEntry_first_failure env ta af entries zip_name nm sevs2 hsend

/-- Environment in which the spliced payload is rejected as too large but
the original payload goes through. -/
def envRetry : Env where
  testing := false
  channel := fun _ => .found
  size := fun _ _ => 100
  transport := fun nm spliced =>
    if nm = "team-ABC-1.zip" && spliced then .httpError 413 else .ok

/-- A combined archive with an animations bundle and one team entry. -/
def entriesRetry : List ZEntry :=
  [⟨"animations.zip", true, [("match-3.png", 7), ("textures/a.png", 8)]⟩,
   ⟨"team-ABC-1.zip", true, [("match-3.txt", 1)]⟩]

/-- C1, counterexample: in team mode with a spliced payload rejected at
413 and the retry with the original copy succeeding, the file is delivered
(`sent`, "Only able to upload logs" reply) yet the team is not recorded:
`completed_tlas` stays empty and the final summary lists no teams. -/
theorem C1_counterexample :
    Event.sent "team-ABC-1.zip" false ∈
      (logs_upload envRetry (some entriesRetry) "combined.zip" (some true)).events ∧
    Event.reply "Only able to upload logs for ABC, no animations were served" ∈
      (logs_upload envRetry (some entriesRetry) "combined.zip" (some true)).events ∧
    (logs_upload envRetry (some entriesRetry) "combined.zip" (some true)).completed = [] ∧
    Event.summary [] ∈
      (logs_upload envRetry (some entriesRetry) "combined.zip" (some true)).events := by
  decide

/-- Environment in which every channel resolves and every send succeeds. -/
def envOk : Env where
  testing := false
  channel := fun _ => .found
  size := fun _ _ => 100
  transport := fun _ _ => .ok

/-- A combined archive holding one valid team entry. -/
def entriesOk : List ZEntry := [⟨"team-ABC-1.zip", true, [("match-3.txt", 1)]⟩]

/-- Witness for C1's amended statement: a first-attempt success lands in
the summary; the retry-only delivery of the counterexample scenario is not
recorded. -/
theorem C1_first_attempt_recorded_witness :
    ((logs_upload envOk (some entriesOk) "combined.zip" none).fatal = none ∧
      pre_test_zipfile "team-ABC-1.zip" = true ∧
      tla_match "team-ABC-1.zip" = some "ABC" ∧
      "ABC" ∈ (logs_upload envOk (some entriesOk) "combined.zip" none).completed) ∧
    ((processEntry envRetry (some true) true entriesRetry "combined.zip"
      "team-ABC-1.zip").completedTla = none) :=
  ⟨⟨by decide, by decide, by decide,
    ((C1_first_attempt_recorded envOk entriesOk "combined.zip" none
      "team-ABC-1.zip" "ABC" []).1 (by decide) (by decide) (by decide) (by decide)
      (by decide) (by decide) (by decide) (by rfl)).1⟩,
    (C1_first_attempt_recorded envRetry entriesRetry "combined.zip" (some true)
      "team-ABC-1.zip" "ABC" []).2 true [.tooLarge "team-ABC-1.zip" (sizeFigure 100)]
      (by rfl)⟩

/-- Passing the name filter includes starting (lowercased) with `team-`. -/
theorem pre_test_starts (nm : String) (h : pre_test_zipfile nm = true) :
    pyStartsWith (pyLower nm) TEAM_PREFIX = true := by
  unfold pre_test_zipfile at h
  split at h
  · exact absurd h (by simp)
  · split at h
    · exact absurd h (by simp)
    · next h2 => simpa using h2

/-- A name whose lowercase starts with `team-` does not start with
`animations`. -/
theorem starts_team_not_anim (nm : String)
    (h : pyStartsWith (pyLower nm) TEAM_PREFIX = true) :
    pyStartsWith nm "animations" = false := by
  have hdata : (pyLower nm).toList = nm.data.map pyLowerChar := rfl
  unfold pyStartsWith at h ⊢
  rw [hdata] at h
  show ("animations" : String).toList.isPrefixOf nm.data = false
  cases hl : nm.data with
  | nil =>
    rw [hl] at h
    simp [TEAM_PREFIX, List.isPrefixOf] at h
  | cons c rest =>
    rw [hl] at h
    have hc : pyLowerChar c = 't' := by
      rw [show (TEAM_PREFIX.toList) = ['t', 'e', 'a', 'm', '-'] from rfl] at h
      simp only [List.map_cons, List.isPrefixOf, Bool.and_eq_true, beq_iff_eq] at h
      exact h.1.symm
    have hca : ('a' == c) = false := by
      refine beq_eq_false_iff_ne.mpr (fun hh => ?_)
      rw [← hh] at hc
      exact absurd hc (by decide)
    rw [show (("animations" : String).toList) =
      ['a', 'n', 'i', 'm', 'a', 't', 'i', 'o', 'n', 's'] from rfl]
    simp [List.isPrefixOf, hca]

/-- An entry that passes the team name filter never matches the
animations-bundle pattern. -/
theorem pre_test_not_anim (nm : String) (h : pre_test_zipfile nm = true) :
    (pyStartsWith nm "animations" && pyEndsWith nm ".zip") = false := by
  rw [starts_team_not_anim nm (pre_test_starts nm h)]
  simp

/-- Inserting an entry with a fresh name does not change name-keyed
lookup of other names. -/
theorem zipGetInfo_insert (xs ys : List ZEntry) (bad : ZEntry) (nm : String)
    (hne : bad.name ≠ nm) :
    zipGetInfo (xs ++ bad :: ys) nm = zipGetInfo (xs ++ ys) nm := by
  unfold zipGetInfo
  have hb : (bad.name == nm) = false := beq_eq_false_iff_ne.mpr hne
  rw [List.filter_append, List.filter_cons, hb, List.filter_append]
  simp

/-- Lookup of an inserted fresh name yields that entry's validity. -/
theorem validOf_insert_self (xs ys : List ZEntry) (bad : ZEntry)
    (hfresh : bad.name ∉ (xs ++ ys).map ZEntry.name) :
    validOf (xs ++ bad :: ys) bad.name = bad.valid := by
  unfold validOf zipGetInfo
  have hx : xs.filter (fun e => e.name == bad.name) = [] := by
    rw [List.filter_eq_nil_iff]
    intro e he
    simp only [beq_eq_false_iff_ne, ne_eq, Bool.not_eq_true, beq_eq_false_iff_ne]
    intro hh
    exact hfresh (by
      simp only [List.map_append, List.mem_append]
      exact Or.inl (hh ▸ List.mem_map_of_mem ZEntry.name he))
  have hy : ys.filter (fun e => e.name == bad.name) = [] := by
    rw [List.filter_eq_nil_iff]
    intro e he
    simp only [beq_eq_false_iff_ne, ne_eq, Bool.not_eq_true, beq_eq_false_iff_ne]
    intro hh
    exact hfresh (by
      simp only [List.map_append, List.mem_append]
      exact Or.inr (hh ▸ List.mem_map_of_mem ZEntry.name he))
  rw [List.filter_append, List.filter_cons, hx, hy]
  simp

/-- Inserting a non-animations entry does not change the animation
resolver's behaviour. -/
theorem extract_animations_insert (xs ys : List ZEntry) (bad : ZEntry) (f : Bool)
    (ws : Ws)
    (hanim : (pyStartsWith bad.name "animations" && pyEndsWith bad.name ".zip") = false) :
    extract_animations (xs ++ bad :: ys) ws f = extract_animations (xs ++ ys) ws f := by
  unfold extract_animations
  have hfilter : ((xs ++ bad :: ys).map ZEntry.name).filter
      (fun n => pyStartsWith n "animations" && pyEndsWith n ".zip") =
      ((xs ++ ys).map ZEntry.name).filter
        (fun n => pyStartsWith n "animations" && pyEndsWith n ".zip") := by
    simp only [List.map_append, List.map_cons, List.filter_append, List.filter_cons,
      hanim]
    simp
  rw [hfilter]
  cases hF : ((xs ++ ys).map ZEntry.name).filter
      (fun n => pyStartsWith n "animations" && pyEndsWith n ".zip") with
  | nil => rfl
  | cons nm rest =>
    have hnmmem : nm ∈ ((xs ++ ys).map ZEntry.name).filter
        (fun n => pyStartsWith n "animations" && pyEndsWith n ".zip") := by
      rw [hF]
      exact List.mem_cons_self _ _
    have hnmP := (List.mem_filter.mp hnmmem).2
    have hnm : bad.name ≠ nm := by
      intro he
      rw [← he] at hnmP
      rw [hanim] at hnmP
      simp at hnmP
    dsimp only
    rw [zipGetInfo_insert xs ys bad nm hnm]

/-- Inserting a non-animations entry does not change the animations
step. -/
theorem animationsStep_insert (xs ys : List ZEntry) (bad : ZEntry) (ta : Option Bool)
    (hanim : (pyStartsWith bad.name "animations" && pyEndsWith bad.name ".zip") = false) :
    animationsStep (xs ++ bad :: ys) ta = animationsStep (xs ++ ys) ta := by
  unfold animationsStep
  cases ta with
  | none => rfl
  | some fully =>
    dsimp only
    rw [extract_animations_insert xs ys bad fully [] hanim]

/-- Two loops with pointwise-equal steps are equal. -/
theorem runEntries_congr_full (env : Env) (ta : Option Bool) (af : Bool)
    (e1 e2 : List ZEntry) (zip : String) (names : List String) (st : LoopState)
    (hpc : ∀ nm ∈ names,
      processEntry env ta af e1 zip nm = processEntry env ta af e2 zip nm) :
    runEntries env ta af e1 zip names st = runEntries env ta af e2 zip names st := by
  induction names generalizing st with
  | nil => rfl
  | cons nm rest ih =>
    simp only [runEntries]
    rw [hpc nm (List.mem_cons_self _ _)]
    split
    · rfl
    · exact ih _ (fun n hn => hpc n (List.mem_cons_of_mem _ hn))

/-- Inserting one corrupt team entry into the batch changes neither the
completed teams nor the run's exception, and (when the body runs to the
point of processing it) adds the one diagnostic reply for that entry. -/
theorem bodyRun_insert (env : Env) (ta : Option Bool) (zip : String)
    (xs ys : List ZEntry) (bad : ZEntry)
    (hpre : pre_test_zipfile bad.name = true)
    (hval : bad.valid = false)
    (hfresh : bad.name ∉ (xs ++ ys).map ZEntry.name) :
    (bodyRun env (xs ++ bad :: ys) zip ta).completed =
      (bodyRun env (xs ++ ys) zip ta).completed ∧
    (bodyRun env (xs ++ bad :: ys) zip ta).fatal =
      (bodyRun env (xs ++ ys) zip ta).fatal ∧
    ((bodyRun env (xs ++ bad :: ys) zip ta).fatal = none →
      (animationsStep (xs ++ bad :: ys) ta).2.fatal = none →
      Event.reply ("# " ++ bad.name ++ " from " ++ zip ++ " is not a valid ZIP file") ∈
        (bodyRun env (xs ++ bad :: ys) zip ta).events) := by
  have hanim := pre_test_not_anim bad.name hpre
  have hstepeq := animationsStep_insert xs ys bad ta hanim
  have hnames2 : (xs ++ ys).map ZEntry.name =
      xs.map ZEntry.name ++ ys.map ZEntry.name := by simp
  have hpc : ∀ (af : Bool) (nmm : String), nmm ∈ (xs ++ ys).map ZEntry.name →
      processEntry env ta af (xs ++ bad :: ys) zip nmm =
      processEntry env ta af (xs ++ ys) zip nmm := by
    intro af nmm hm
    apply processEntry_congr_valid
    unfold validOf
    rw [zipGetInfo_insert xs ys bad nmm (fun he => hfresh (he ▸ hm))]
  have hpebad : ∀ af : Bool, processEntry env ta af (xs ++ bad :: ys) zip bad.name =
      ⟨none, [.extractFile bad.name,
        .reply ("# " ++ bad.name ++ " from " ++ zip ++ " is not a valid ZIP file")],
        none⟩ := by
    intro af
    apply processEntry_invalid env ta af _ zip bad.name hpre
    rw [validOf_insert_self xs ys bad hfresh, hval]
  unfold bodyRun
  dsimp only
  rw [hstepeq]
  by_cases h0 : (animationsStep (xs ++ ys) ta).2.fatal.isSome
  · rw [if_pos h0, if_pos h0]
    refine ⟨rfl, rfl, ?_⟩
    intro _ hstep
    rw [hstep] at h0
    simp at h0
  · rw [if_neg h0, if_neg h0]
    have hnames1 : (xs ++ bad :: ys).map ZEntry.name =
        xs.map ZEntry.name ++ bad.name :: ys.map ZEntry.name := by simp
    rw [hnames1, hnames2, runEntries_append, runEntries_append]
    rw [runEntries_congr_full env ta (animationsStep (xs ++ ys) ta).1 _ (xs ++ ys) zip
      (xs.map ZEntry.name) (animationsStep (xs ++ ys) ta).2
      (fun n hn => hpc _ n (by rw [hnames2]; exact List.mem_append.mpr (Or.inl hn)))]
    by_cases hAf : (runEntries env ta (animationsStep (xs ++ ys) ta).1 (xs ++ ys) zip
        (xs.map ZEntry.name) (animationsStep (xs ++ ys) ta).2).fatal.isSome
    · rw [runEntries_stop env ta _ _ zip _ _ hAf, runEntries_stop env ta _ _ zip _ _ hAf]
      refine ⟨rfl, rfl, ?_⟩
      intro hbf _
      have hfA : forwardAnimations env ta (animationsStep (xs ++ ys) ta).1
          (runEntries env ta (animationsStep (xs ++ ys) ta).1 (xs ++ ys) zip
            (xs.map ZEntry.name) (animationsStep (xs ++ ys) ta).2) =
          runEntries env ta (animationsStep (xs ++ ys) ta).1 (xs ++ ys) zip
            (xs.map ZEntry.name) (animationsStep (xs ++ ys) ta).2 := by
        unfold forwardAnimations
        rw [if_pos hAf]
      rw [hfA, if_pos hAf] at hbf
      rw [hbf] at hAf
      simp at hAf
    · have hAn : (runEntries env ta (animationsStep (xs ++ ys) ta).1 (xs ++ ys) zip
          (xs.map ZEntry.name) (animationsStep (xs ++ ys) ta).2).fatal = none :=
        Option.not_isSome_iff_eq_none.mp hAf
      have hkey : runEntries env ta (animationsStep (xs ++ ys) ta).1 (xs ++ bad :: ys)
          zip (bad.name :: ys.map ZEntry.name)
          (runEntries env ta (animationsStep (xs ++ ys) ta).1 (xs ++ ys) zip
            (xs.map ZEntry.name) (animationsStep (xs ++ ys) ta).2) =
          runEntries env ta (animationsStep (xs ++ ys) ta).1 (xs ++ ys) zip
            (ys.map ZEntry.name)
            ⟨(runEntries env ta (animationsStep (xs ++ ys) ta).1 (xs ++ ys) zip
                (xs.map ZEntry.name) (animationsStep (xs ++ ys) ta).2).completed,
              (runEntries env ta (animationsStep (xs ++ ys) ta).1 (xs ++ ys) zip
                (xs.map ZEntry.name) (animationsStep (xs ++ ys) ta).2).events ++
                [.extractFile bad.name,
                  .reply ("# " ++ bad.name ++ " from " ++ zip ++
                    " is not a valid ZIP file")],
              none⟩ := by
        simp only [runEntries]
        rw [if_neg hAf, hpebad (animationsStep (xs ++ ys) ta).1]
        dsimp only [Option.toList]
        rw [List.append_nil]
        exact runEntries_congr_full env ta (animationsStep (xs ++ ys) ta).1 _ (xs ++ ys)
          zip (ys.map ZEntry.name) _
          (fun n hn => hpc _ n (by rw [hnames2]; exact List.mem_append.mpr (Or.inr hn)))
      rw [hkey]
      obtain ⟨hLc, hLf⟩ := runEntries_proj_congr env ta (animationsStep (xs ++ ys) ta).1
        (xs ++ ys) (xs ++ ys) zip (ys.map ZEntry.name)
        ⟨(runEntries env ta (animationsStep (xs ++ ys) ta).1 (xs ++ ys) zip
            (xs.map ZEntry.name) (animationsStep (xs ++ ys) ta).2).completed,
          (runEntries env ta (animationsStep (xs ++ ys) ta).1 (xs ++ ys) zip
            (xs.map ZEntry.name) (animationsStep (xs ++ ys) ta).2).events ++
            [.extractFile bad.name,
              .reply ("# " ++ bad.name ++ " from " ++ zip ++ " is not a valid ZIP file")],
          none⟩
        (runEntries env ta (animationsStep (xs ++ ys) ta).1 (xs ++ ys) zip
          (xs.map ZEntry.name) (animationsStep (xs ++ ys) ta).2)
        (fun _ _ => rfl) rfl (by rw [hAn])
      have hdiagL : Event.reply ("# " ++ bad.name ++ " from " ++ zip ++
          " is not a valid ZIP file") ∈
          (runEntries env ta (animationsStep (xs ++ ys) ta).1 (xs ++ ys) zip
            (ys.map ZEntry.name)
            ⟨(runEntries env ta (animationsStep (xs ++ ys) ta).1 (xs ++ ys) zip
                (xs.map ZEntry.name) (animationsStep (xs ++ ys) ta).2).completed,
              (runEntries env ta (animationsStep (xs ++ ys) ta).1 (xs ++ ys) zip
                (xs.map ZEntry.name) (animationsStep (xs ++ ys) ta).2).events ++
                [.extractFile bad.name,
                  .reply ("# " ++ bad.name ++ " from " ++ zip ++
                    " is not a valid ZIP file")],
              none⟩).events := by
        apply runEntries_events_mono
        simp
      have hFc := forward_fatal_congr env ta (animationsStep (xs ++ ys) ta).1 _ _ hLf
      by_cases hS : (forwardAnimations env ta (animationsStep (xs ++ ys) ta).1
          (runEntries env ta (animationsStep (xs ++ ys) ta).1 (xs ++ ys) zip
            (ys.map ZEntry.name)
            (runEntries env ta (animationsStep (xs ++ ys) ta).1 (xs ++ ys) zip
              (xs.map ZEntry.name) (animationsStep (xs ++ ys) ta).2))).fatal.isSome
      · rw [if_pos (by rw [hFc]; exact hS), if_pos hS]
        refine ⟨?_, hFc, fun _ _ => forward_events_mono env ta _ _ _ hdiagL⟩
        rw [forward_completed, forward_completed, hLc]
      · rw [if_neg (by rw [hFc]; exact hS), if_neg hS]
        dsimp only
        refine ⟨?_, rfl, ?_⟩
        · rw [forward_completed, forward_completed, hLc]
        · intro _ _
          simp only [List.mem_append]
          exact Or.inl (forward_events_mono env ta _ _ _ hdiagL)

/-- The completed list of a run is that of its body. -/
theorem logs_upload_completed_proj (env : Env) (entries : List ZEntry) (zip : String)
    (ta : Option Bool) :
    (logs_upload env (some entries) zip ta).completed =
      (bodyRun env entries zip ta).completed := by
  unfold logs_upload
  dsimp only
  split <;> rfl

/-- Runs whose bodies end with the same pending exception return the
same way. -/
theorem logs_upload_fatal_congr (env : Env) (e1 e2 : List ZEntry) (zip : String)
    (ta : Option Bool)
    (h : (bodyRun env e1 zip ta).fatal = (bodyRun env e2 zip ta).fatal) :
    (logs_upload env (some e1) zip ta).fatal = (logs_upload env (some e2) zip ta).fatal := by
  unfold logs_upload
  dsimp only
  rw [h]
  split <;> rfl

/-- Every event of the body is in the run's trace. -/
theorem logs_upload_events_sup (env : Env) (entries : List ZEntry) (zip : String)
    (ta : Option Bool) (x : Event) (h : x ∈ (bodyRun env entries zip ta).events) :
    x ∈ (logs_upload env (some entries) zip ta).events := by
  unfold logs_upload
  dsimp only
  split <;> (simp only [List.mem_append]; exact Or.inl h)

/-- C3: an entry that passes the name filter but is not a valid archive
container is reported with a diagnostic and skipped, and its presence in
the batch changes nothing else: the completed teams and the run's outcome
are exactly those of the same batch without it, so one team's corrupt
entry never prevents another team's delivery. -/
theorem C3_invalid_entry_isolated (env : Env) (ta : Option Bool) (zip_name : String)
    (xs ys : List ZEntry) (bad : ZEntry)
    (hpre : pre_test_zipfile bad.name = true)
    (hval : bad.valid = false)
    (hfresh : bad.name ∉ (xs ++ ys).map ZEntry.name) :
    (logs_upload env (some (xs ++ bad :: ys)) zip_name ta).completed =
      (logs_upload env (some (xs ++ ys)) zip_name ta).completed ∧
    (logs_upload env (some (xs ++ bad :: ys)) zip_name ta).fatal =
      (logs_upload env (some (xs ++ ys)) zip_name ta).fatal ∧
    (((logs_upload env (some (xs ++ bad :: ys)) zip_name ta).fatal = none ∧
        (animationsStep (xs ++ bad :: ys) ta).2.fatal = none) →
      Event.reply ("# " ++ bad.name ++ " from " ++ zip_name ++
          " is not a valid ZIP file") ∈
        (logs_upload env (some (xs ++ bad :: ys)) zip_name ta).events) := by
  obtain ⟨hcomp, hfat, hdiag⟩ := bodyRun_insert env ta zip_name xs ys bad hpre hval hfresh
  refine ⟨?_, logs_upload_fatal_congr env _ _ zip_name ta hfat, ?_⟩
  · rw [logs_upload_completed_proj, logs_upload_completed_proj, hcomp]
  · rintro ⟨hf, hstep⟩
    exact logs_upload_events_sup env _ zip_name ta _
      (hdiag (logs_upload_body_fatal env _ zip_name ta hstep hf) hstep)

/-- Witness for C3 on the spec's SRZ/BAD scenario. -/
theorem C3_invalid_entry_isolated_witness :
    pre_test_zipfile "team-BAD-y.zip" = true ∧
    (⟨"team-BAD-y.zip", false, []⟩ : ZEntry).valid = false ∧
    "team-BAD-y.zip" ∉
      (([] ++ [⟨"team-SRZ-x.zip", true, []⟩]) : List ZEntry).map ZEntry.name ∧
    (logs_upload envOk (some ([] ++ (⟨"team-BAD-y.zip", false, []⟩ : ZEntry) ::
        [⟨"team-SRZ-x.zip", true, []⟩])) "c.zip" none).completed =
      (logs_upload envOk (some ([] ++ [⟨"team-SRZ-x.zip", true, []⟩])) "c.zip"
        none).completed ∧
    Event.reply ("# " ++ "team-BAD-y.zip" ++ " from " ++ "c.zip" ++
        " is not a valid ZIP file") ∈
      (logs_upload envOk (some ([] ++ (⟨"team-BAD-y.zip", false, []⟩ : ZEntry) ::
        [⟨"team-SRZ-x.zip", true, []⟩])) "c.zip" none).events :=
  ⟨by decide, by decide, by decide,
    (C3_invalid_entry_isolated envOk none "c.zip" [] [⟨"team-SRZ-x.zip", true, []⟩]
      ⟨"team-BAD-y.zip", false, []⟩ (by decide) (by decide) (by decide)).1,
    (C3_invalid_entry_isolated envOk none "c.zip" [] [⟨"team-SRZ-x.zip", true, []⟩]
      ⟨"team-BAD-y.zip", false, []⟩ (by decide) (by decide) (by decide)).2.2
      ⟨by decide, by decide⟩⟩

end LogsUploader
